import Mathlib

/-!
Verification development for the openScope flight-route management engine.

The flight-management-system ("Fms") operations are modelled from the spec
(the Fms source file is not part of the provided sources, only its test
suite); the `Pilot` methods (`initiateHoldingPattern`, `maintainAltitude`)
and `AircraftCommander.run` are embedded from their JavaScript sources.
Machine strings are Lean `String`s (lists of characters); route strings are
split on the `..` separator exactly as the textual grammar prescribes.
-/

namespace OpenScope

/-! ## Characters and lowercasing -/

/-- The 26 ASCII uppercase/lowercase letter pairs; model of the ASCII part of
JavaScript `String.prototype.toLowerCase`, which is all the route grammar uses. -/
def upperLowerPairs : List (Char × Char) :=
  [('A', 'a'), ('B', 'b'), ('C', 'c'), ('D', 'd'), ('E', 'e'), ('F', 'f'),
   ('G', 'g'), ('H', 'h'), ('I', 'i'), ('J', 'j'), ('K', 'k'), ('L', 'l'),
   ('M', 'm'), ('N', 'n'), ('O', 'o'), ('P', 'p'), ('Q', 'q'), ('R', 'r'),
   ('S', 's'), ('T', 't'), ('U', 'u'), ('V', 'v'), ('W', 'w'), ('X', 'x'),
   ('Y', 'y'), ('Z', 'z')]

/-- Lowercase a single character (identity outside ASCII uppercase). -/
def lowerChar (c : Char) : Char :=
  match upperLowerPairs.find? (fun p => decide (p.1 = c)) with
  | some p => p.2
  | none => c

/-- Lowercase a string, character by character. -/
def toLowerStr (s : String) : String := ⟨s.data.map lowerChar⟩

theorem lowerChar_ne_dot (c : Char) (h : lowerChar c ≠ c) : lowerChar c ≠ '.' := by
  unfold lowerChar at *
  cases hf : upperLowerPairs.find? (fun p => decide (p.1 = c)) with
  | none => rw [hf] at h; exact absurd rfl h
  | some p =>
    have hmem : p ∈ upperLowerPairs := List.mem_of_find?_eq_some hf
    have hall : ∀ q ∈ upperLowerPairs, q.2 ≠ '.' := by decide
    exact hall p hmem

theorem lowerChar_dot_iff (c : Char) : lowerChar c = '.' ↔ c = '.' := by
  constructor
  · intro h
    by_cases hc : lowerChar c = c
    · rw [hc] at h; exact h
    · exact absurd h (lowerChar_ne_dot c hc)
  · intro h
    subst h
    decide

theorem lowerChar_idem (c : Char) : lowerChar (lowerChar c) = lowerChar c := by
  unfold lowerChar
  cases hf : upperLowerPairs.find? (fun p => decide (p.1 = c)) with
  | none => rw [hf]
  | some p =>
    have hmem : p ∈ upperLowerPairs := List.mem_of_find?_eq_some hf
    have hnone : ∀ q ∈ upperLowerPairs,
        upperLowerPairs.find? (fun r => decide (r.1 = q.2)) = none := by decide
    rw [hnone p hmem]

theorem map_lowerChar_idem (cs : List Char) :
    (cs.map lowerChar).map lowerChar = cs.map lowerChar := by
  induction cs with
  | nil => rfl
  | cons c rest ih => simp [List.map, ih, lowerChar_idem]

theorem toLowerStr_idem (s : String) : toLowerStr (toLowerStr s) = toLowerStr s := by
  unfold toLowerStr
  congr 1
  exact map_lowerChar_idem s.data

/-! ## Route-string grammar: splitting and joining

Modelled from the spec: segments of a full route string are separated by
`..`; a segment is either a single fix token or a 3-token `.`-joined
procedure triple. The splitter below mirrors `routeStringFormatHelper`. -/

/-- Split a character list on the two-character separator `..`.
The accumulator holds the current segment, reversed. -/
def splitSegsAux : List Char → List Char → List (List Char)
  | [], acc => [acc.reverse]
  | [c], acc => [(c :: acc).reverse]
  | c1 :: c2 :: rest, acc =>
      if c1 = '.' ∧ c2 = '.' then acc.reverse :: splitSegsAux rest []
      else splitSegsAux (c2 :: rest) (c1 :: acc)

/-- The segments of a route string (separator `..`). -/
def routeSegments (s : String) : List (List Char) := splitSegsAux s.data []

/-- Join segments back with the `..` separator (serialization direction). -/
def joinSegs : List (List Char) → List Char
  | [] => []
  | [s] => s
  | s :: s2 :: rest => s ++ '.' :: '.' :: joinSegs (s2 :: rest)

/-- Split a segment on single dots into its tokens. -/
def splitDotsAux : List Char → List Char → List (List Char)
  | [], acc => [acc.reverse]
  | c :: rest, acc =>
      if c = '.' then acc.reverse :: splitDotsAux rest []
      else splitDotsAux rest (c :: acc)

/-- A segment is round-trip safe when it contains no `..` and does not end in `.`. -/
def segOk : List Char → Bool
  | [] => true
  | [c] => !(decide (c = '.'))
  | c1 :: c2 :: rest =>
      if c1 = '.' ∧ c2 = '.' then false else segOk (c2 :: rest)

/-- A segment is grammatically valid when its dot-tokens are all nonempty
and it has exactly one token (direct fix) or exactly three (procedure). -/
def isValidSegmentTokens (seg : List Char) : Bool :=
  let toks := splitDotsAux seg []
  toks.all (fun t => !t.isEmpty) && (decide (toks.length = 1) || decide (toks.length = 3))

/-- A route string is valid when every `..`-separated segment is valid. -/
def isValidRouteString (s : String) : Bool :=
  (routeSegments s).all isValidSegmentTokens

theorem splitSegsAux_ne_nil (cs acc : List Char) : splitSegsAux cs acc ≠ [] := by
  induction cs generalizing acc with
  | nil => simp [splitSegsAux]
  | cons c rest ih =>
    cases rest with
    | nil => simp [splitSegsAux]
    | cons c2 rest2 =>
      rw [splitSegsAux]
      split
      · simp
      · exact ih _

theorem splitSegsAux_of_segOk (seg : List Char) (h : segOk seg = true) :
    ∀ acc, splitSegsAux seg acc = [acc.reverse ++ seg] := by
  induction seg with
  | nil => intro acc; simp [splitSegsAux]
  | cons c rest ih =>
    intro acc
    cases rest with
    | nil => simp [splitSegsAux]
    | cons c2 rest2 =>
      rw [segOk] at h
      rw [splitSegsAux]
      split
      · simp_all
      · rename_i hcond
        have h2 : segOk (c2 :: rest2) = true := by
          by_cases hc : c = '.' ∧ c2 = '.'
          · exact absurd hc hcond
          · simpa [hc] using h
        rw [ih h2 (c :: acc)]
        simp

theorem splitSegsAux_append_sep (seg : List Char) (h : segOk seg = true) :
    ∀ acc t, splitSegsAux (seg ++ '.' :: '.' :: t) acc =
      (acc.reverse ++ seg) :: splitSegsAux t [] := by
  induction seg with
  | nil =>
    intro acc t
    simp only [List.nil_append]
    rw [splitSegsAux]
    simp
  | cons c rest ih =>
    intro acc t
    cases rest with
    | nil =>
      have hc : ¬(c = '.') := by simpa [segOk] using h
      simp only [List.cons_append, List.nil_append]
      rw [splitSegsAux]
      rw [if_neg (by simp [hc])]
      rw [splitSegsAux]
      simp
    | cons c2 rest2 =>
      rw [segOk] at h
      have hcond : ¬(c = '.' ∧ c2 = '.') := by
        by_cases hc : c = '.' ∧ c2 = '.'
        · simp [hc] at h
        · exact hc
      have h2 : segOk (c2 :: rest2) = true := by simpa [hcond] using h
      simp only [List.cons_append]
      rw [splitSegsAux]
      rw [if_neg hcond]
      have := ih h2 (c :: acc) t
      simp only [List.cons_append] at this
      rw [this]
      simp

theorem splitSegs_joinSegs (segs : List (List Char)) (hne : segs ≠ [])
    (hok : ∀ s ∈ segs, segOk s = true) :
    splitSegsAux (joinSegs segs) [] = segs := by
  induction segs with
  | nil => exact absurd rfl hne
  | cons s rest ih =>
    cases rest with
    | nil =>
      rw [joinSegs]
      rw [splitSegsAux_of_segOk s (hok s (by simp))]
      simp
    | cons s2 rest2 =>
      rw [joinSegs]
      rw [splitSegsAux_append_sep s (hok s (by simp))]
      rw [ih (by simp) (fun x hx => hok x (by simp [hx]))]
      simp

theorem segOk_of_tokens_nonempty (seg : List Char) :
    ∀ acc, ((splitDotsAux seg acc).all (fun t => !t.isEmpty)) = true → segOk seg = true := by
  induction seg with
  | nil => intro acc _; rfl
  | cons c rest ih =>
    intro acc hall
    by_cases hc : c = '.'
    · subst hc
      rw [splitDotsAux, if_pos rfl] at hall
      simp only [List.all_cons, Bool.and_eq_true] at hall
      cases rest with
      | nil =>
        exfalso
        rw [splitDotsAux] at hall
        simp at hall
      | cons c2 rest2 =>
        by_cases hc2 : c2 = '.'
        · exfalso
          subst hc2
          rw [splitDotsAux, if_pos rfl] at hall
          simp at hall
        · rw [segOk, if_neg (by simp [hc2])]
          exact ih [] hall.2
    · rw [splitDotsAux, if_neg hc] at hall
      cases rest with
      | nil => simp [segOk, hc]
      | cons c2 rest2 =>
        by_cases hboth : c = '.' ∧ c2 = '.'
        · exact absurd hboth.1 hc
        · rw [segOk, if_neg hboth]
          exact ih (c :: acc) hall

theorem segOk_map_lowerChar (seg : List Char) :
    segOk (seg.map lowerChar) = segOk seg := by
  induction seg with
  | nil => rfl
  | cons c rest ih =>
    cases rest with
    | nil =>
      simp only [List.map, segOk]
      congr 1
      exact decide_eq_decide.mpr (lowerChar_dot_iff c)
    | cons c2 rest2 =>
      by_cases hc : c = '.' ∧ c2 = '.'
      · have hc2 : lowerChar c = '.' ∧ lowerChar c2 = '.' :=
          ⟨(lowerChar_dot_iff c).mpr hc.1, (lowerChar_dot_iff c2).mpr hc.2⟩
        simp only [List.map_cons, segOk, if_pos hc, if_pos hc2]
      · have hc2 : ¬(lowerChar c = '.' ∧ lowerChar c2 = '.') := by
          intro hx
          exact hc ⟨(lowerChar_dot_iff c).mp hx.1, (lowerChar_dot_iff c2).mp hx.2⟩
        simp only [List.map_cons, segOk, if_neg hc, if_neg hc2]
        simp only [List.map_cons] at ih
        exact ih

theorem joinSegs_map_lowerChar (segs : List (List Char)) :
    (joinSegs segs).map lowerChar = joinSegs (segs.map (List.map lowerChar)) := by
  induction segs with
  | nil => rfl
  | cons s rest ih =>
    cases rest with
    | nil => rfl
    | cons s2 rest2 =>
      simp only [List.map_cons] at ih ⊢
      simp only [joinSegs, List.map_append, List.map_cons]
      rw [show lowerChar '.' = '.' from by decide]
      try rw [ih]

/-! ## Data model

Modelled from the spec (§3): waypoints carry a lowercase name, optional
hold metadata and an optional position; legs carry a lowercase route
string, a procedure flag and an owned waypoint sequence; the engine owns
the leg collection and the consumed-segment history. -/

/-- A single navigation fix with optional hold metadata (spec §3 Waypoint). -/
structure WaypointModel where
  name : String
  isHold : Bool := false
  turnDirection : Option String := none
  legLength : Option String := none
  relativePosition : Option (Int × Int) := none
deriving DecidableEq

/-- Category of a published procedure: departure (SID) or arrival (STAR). -/
inductive ProcedureType where
  | sid
  | star
deriving DecidableEq

/-- One contiguous route segment: a named procedure or a single direct fix
(spec §3 Leg). -/
structure LegModel where
  routeString : String
  isProcedure : Bool
  procedureType : Option ProcedureType := none
  waypointCollection : List WaypointModel
deriving DecidableEq

/-- The flight-route engine state (spec §3 FlightRouteEngine): the leg
collection (front = nearest upcoming leg) and the append-once history of
consumed route segments. -/
structure Fms where
  legCollection : List LegModel
  previousRouteSegments : List String
deriving DecidableEq

/-! ## Procedure directory (external collaborator)

Modelled from the spec (§2, §6): a read-only directory resolving a
procedure identifier plus entry/exit to an ordered fix list. -/

/-- A published procedure: identifier, category, and expansions keyed by
(entry, exit) pairs. -/
structure ProcedureDefinition where
  procId : String
  procType : ProcedureType
  expansions : List ((String × String) × List String)
deriving DecidableEq

/-- The procedure directory. -/
structure NavigationLibrary where
  procedures : List ProcedureDefinition
deriving DecidableEq

def findProcedure (lib : NavigationLibrary) (procId : String) : Option ProcedureDefinition :=
  lib.procedures.find? (fun p => decide (p.procId = procId))

def expansionFixes (pe : ProcedureDefinition) (entry exitFix : String) : List String :=
  match pe.expansions.find? (fun e => decide (e.1.1 = entry ∧ e.1.2 = exitFix)) with
  | some e => e.2
  | none => []

/-- Modelled from the spec: the test fixture navigation data used by the
Fms test suite is not among the provided sources; this directory reproduces
the observable facts the tests pin down (the KEPEC3 arrival from DAG to
KLAS expands to 12 fixes beginning with `dag`, containing `sunst`, and
ending with `prino`; the TRALR6 departure from KLAS to MLF is a SID). -/
def navigationLibraryFixture : NavigationLibrary :=
  { procedures :=
      [ { procId := "kepec3", procType := .star,
          expansions := [(("dag", "klas"),
            ["dag", "misen", "sunst", "clarr", "skebr", "kepec",
             "ipumy", "niipg", "zelma", "pokrr", "luxor", "prino"])] },
        { procId := "tralr6", procType := .sid,
          expansions := [(("klas", "mlf"), ["bessy", "tralr", "mlf"])] } ] }

/-! ## Leg construction and serialization -/

/-- Classify a lowered segment and build its procedure data: returns
(isProcedure, procedureType, waypoints). Modelled from the spec (§4.1,
§4.2): a 3-token segment is a procedure expanded through the directory; any
other segment is a direct fix with a single waypoint of the same name. -/
def buildLegKind (lib : NavigationLibrary) (segLower : List Char) :
    Bool × Option ProcedureType × List WaypointModel :=
  match splitDotsAux segLower [] with
  | [entry, procId, exitFix] =>
      match findProcedure lib ⟨procId⟩ with
      | some pe =>
          (true, some pe.procType,
           (expansionFixes pe ⟨entry⟩ ⟨exitFix⟩).map (fun n => { name := n }))
      | none => (true, none, [])
  | _ => (false, none, [{ name := ⟨segLower⟩ }])

/-- Build one leg from a raw segment; the stored route string is the
lowercased segment. -/
def buildLeg (lib : NavigationLibrary) (seg : List Char) : LegModel :=
  let segLower := seg.map lowerChar
  let kind := buildLegKind lib segLower
  { routeString := ⟨segLower⟩, isProcedure := kind.1,
    procedureType := kind.2.1, waypointCollection := kind.2.2 }

/-- Parse a route string into the leg collection (spec §4.2 initialize /
`_buildLegCollection`). -/
def buildLegCollection (lib : NavigationLibrary) (s : String) : List LegModel :=
  (routeSegments s).map (buildLeg lib)

/-- A freshly initialized engine: parsed legs, empty history. -/
def initFms (lib : NavigationLibrary) (route : String) : Fms :=
  { legCollection := buildLegCollection lib route, previousRouteSegments := [] }

/-- Serialize the upcoming route (spec §4.1 serialization, `currentRoute`):
join the legs' route strings with `..`; procedure legs already render as
three dot-joined tokens. -/
def currentRoute (fms : Fms) : String :=
  ⟨joinSegs (fms.legCollection.map (fun leg => leg.routeString.data))⟩

/-! ## Searching and small list helpers -/

/-- Safe positional lookup (used to state index-based properties). -/
def listGet? : List α → Nat → Option α
  | [], _ => none
  | a :: _, 0 => some a
  | _ :: as, n + 1 => listGet? as n

/-- Replace the element at an index by applying a function (in-place
mutation of one waypoint or leg). -/
def modifyAt : Nat → (α → α) → List α → List α
  | _, _, [] => []
  | 0, f, a :: as => f a :: as
  | n + 1, f, a :: as => a :: modifyAt n f as

/-- Index of the first waypoint with the given (lowercase) name. -/
def findWpIdx (n : String) : List WaypointModel → Option Nat
  | [] => none
  | w :: ws => if w.name = n then some 0 else (findWpIdx n ws).map (· + 1)

/-- Scan a leg list for the first waypoint with the given name, returning
its (leg index, waypoint index). -/
def findLegWpAux (n : String) : List LegModel → Option (Nat × Nat)
  | [] => none
  | leg :: rest =>
      match findWpIdx n leg.waypointCollection with
      | some j => some (0, j)
      | none => (findLegWpAux n rest).map (fun p => (p.1 + 1, p.2))

/-- Linear scan over legs then waypoints for the first waypoint with the
given name; mirrors `_findLegAndWaypointIndexForWaypointName` (spec §4.3). -/
def findLegAndWaypointIndexForWaypointName (fms : Fms) (n : String) : Option (Nat × Nat) :=
  findLegWpAux n fms.legCollection

/-- All waypoints of a leg list, in order. -/
def allWaypoints : List LegModel → List WaypointModel
  | [] => []
  | leg :: rest => leg.waypointCollection ++ allWaypoints rest

/-- All upcoming waypoints of the engine (`waypoints` property). -/
def Fms.waypoints (fms : Fms) : List WaypointModel := allWaypoints fms.legCollection

/-- The names of all upcoming waypoints, in order. -/
def allNames (fms : Fms) : List String := fms.waypoints.map (fun w => w.name)

/-- The current waypoint: the first waypoint of the first leg that has any
waypoints (spec §3). -/
def currentWaypoint? (fms : Fms) : Option WaypointModel := fms.waypoints.head?

/-- Whether some upcoming waypoint carries the given (lowercase) name. -/
def hasWaypointName (fms : Fms) (n : String) : Bool :=
  fms.waypoints.any (fun w => decide (w.name = n))

/-! ## History bookkeeping and advancement

Modelled from the spec (§3 invariants, §4.4) and pinned by the test
suite: `_updatePreviousRouteSegments` appends a consumed route string only
when it is not already recorded. -/

/-- Append a consumed route string to the history unless already present
(`_updatePreviousRouteSegments`). -/
def updateSegments (prev : List String) (routeString : String) : List String :=
  if routeString ∈ prev then prev else prev ++ [routeString]

/-- Fold a list of consumed route strings into the history, in order. -/
def recordSegments (prev : List String) (dropped : List String) : List String :=
  dropped.foldl updateSegments prev

/-- The route strings `nextWaypoint` folds into the history: the front
leg's route string exactly when that leg holds at most one waypoint (it is
the leg being consumed). -/
def nextDropped (fms : Fms) : List String :=
  match fms.legCollection with
  | [] => []
  | leg :: _ =>
      match leg.waypointCollection with
      | [] => [leg.routeString]
      | [_] => [leg.routeString]
      | _ :: _ :: _ => []

/-- The leg collection after `nextWaypoint`. -/
def nextLegs (fms : Fms) : List LegModel :=
  match fms.legCollection with
  | [] => []
  | leg :: rest =>
      match leg.waypointCollection with
      | [] => rest
      | [_] => rest
      | _ :: w2 :: ws => { leg with waypointCollection := w2 :: ws } :: rest

/-- Advance past the current waypoint (spec §4.4 `nextWaypoint`): remove the
front waypoint of the front leg; when the front leg is thereby exhausted
(or was already empty) the leg is removed and its route string folded into
the history. -/
def nextWaypoint (fms : Fms) : Fms :=
  { legCollection := nextLegs fms,
    previousRouteSegments := recordSegments fms.previousRouteSegments (nextDropped fms) }

/-- The route strings `skipToWaypoint` folds into the history: those of the
legs strictly before the leg containing the matched waypoint. -/
def skipDropped (fms : Fms) (n : String) : List String :=
  match findLegAndWaypointIndexForWaypointName fms (toLowerStr n) with
  | none => []
  | some (li, _) => (fms.legCollection.take li).map (fun leg => leg.routeString)

/-- The leg collection after `skipToWaypoint`. -/
def skipLegs (fms : Fms) (n : String) : List LegModel :=
  match findLegAndWaypointIndexForWaypointName fms (toLowerStr n) with
  | none => fms.legCollection
  | some (li, wi) =>
      match fms.legCollection.drop li with
      | [] => []
      | leg :: rest =>
          { leg with waypointCollection := leg.waypointCollection.drop wi } :: rest

/-- Skip ahead to the first waypoint with the given name (spec §4.4
`skipToWaypoint`): case-insensitive search in leg order; legs strictly
before the match are dropped with their route strings folded into the
history; the matching leg loses its preceding waypoints. The engine is
unchanged when the name is not found. -/
def skipToWaypoint (fms : Fms) (n : String) : Fms :=
  { legCollection := skipLegs fms n,
    previousRouteSegments := recordSegments fms.previousRouteSegments (skipDropped fms n) }

/-! ## Holding patterns -/

/-- Attach hold metadata to a waypoint, in place (spec §3 Waypoint
lifecycle). -/
def applyHold (turnDirection legLength : String) (w : WaypointModel) : WaypointModel :=
  { w with isHold := true, turnDirection := some turnDirection, legLength := some legLength }

/-- A brand-new single-waypoint leg anchoring a hold at a position. -/
def holdWaypointLeg (n : String) (turnDirection legLength : String) (pos : Int × Int) : LegModel :=
  { routeString := n, isProcedure := false, procedureType := none,
    waypointCollection :=
      [{ name := n, isHold := true, turnDirection := some turnDirection,
         legLength := some legLength, relativePosition := some pos }] }

/-- Strip a leading `@` hold marker from a route segment. -/
def stripAt (s : String) : String :=
  match s.data with
  | c :: rest => if c = '@' then ⟨rest⟩ else s
  | [] => s

/-- Attach hold metadata to the waypoint at index `wi` of a leg, in place. -/
def attachHoldAt (turnDirection legLength : String) (wi : Nat) (leg : LegModel) : LegModel :=
  { leg with waypointCollection :=
      modifyAt wi (applyHold turnDirection legLength) leg.waypointCollection }

/-- The engine after hold metadata is attached, in place, to the waypoint
at position (li, wi). -/
def holdAmended (fms : Fms) (turnDirection legLength : String) (li wi : Nat) : Fms :=
  { fms with legCollection :=
      modifyAt li (attachHoldAt turnDirection legLength wi) fms.legCollection }

/-- Insert a holding pattern (spec §4.5 `createLegWithHoldingPattern`):
hold at present position for the sentinel `GPS`; attach hold metadata in
place and skip to the fix when it already exists in the legs; otherwise
prepend a fresh single-waypoint hold leg. -/
def createLegWithHoldingPattern (fms : Fms) (turnDirection legLength holdRouteSegment : String)
    (holdPosition : Int × Int) : Fms :=
  if holdRouteSegment = "GPS" then
    { fms with legCollection :=
        holdWaypointLeg "gps" turnDirection legLength holdPosition :: fms.legCollection }
  else
    let fixName := toLowerStr (stripAt holdRouteSegment)
    match findLegAndWaypointIndexForWaypointName fms fixName with
    | some (li, wi) =>
        skipToWaypoint (holdAmended fms turnDirection legLength li wi) fixName
    | none =>
        { fms with legCollection :=
            holdWaypointLeg fixName turnDirection legLength holdPosition :: fms.legCollection }

/-! ## Route amendments -/

/-- The lowercased `..`-separated segments of an amendment route string. -/
def amendmentSegments (s : String) : List String :=
  (routeSegments s).map (fun cs => ⟨cs.map lowerChar⟩)

/-- Validity of a partial reroute (spec §4.2 `isValidRouteAmendment`): at
least one direct-fix token, not already consumed into the history, must
name an upcoming waypoint. -/
def isValidRouteAmendment (fms : Fms) (routeString : String) : Bool :=
  (amendmentSegments routeString).any (fun seg =>
    !(seg.data.any (fun c => decide (c = '.'))) &&
    !(decide (seg ∈ fms.previousRouteSegments)) &&
    hasWaypointName fms seg)

/-- Split an amendment at its first segment that names an upcoming
waypoint: returns (preceding segments, shared segment). -/
def splitAtFirstShared (fms : Fms) : List String → Option (List String × String)
  | [] => none
  | seg :: rest =>
      if hasWaypointName fms seg then some ([], seg)
      else (splitAtFirstShared fms rest).map (fun p => (seg :: p.1, p.2))

/-- Merge a partial reroute into the plan (spec §4.3
`replaceRouteUpToSharedRouteSegment`): trim the legs to begin at the leg
containing the first shared fix and prepend one new leg per preceding
amendment token; the discarded legs are NOT added to the history. -/
def replaceRouteUpToSharedRouteSegment (lib : NavigationLibrary) (fms : Fms)
    (routeString : String) : Fms :=
  match splitAtFirstShared fms (amendmentSegments routeString) with
  | none => fms
  | some (pre, shared) =>
      match findLegAndWaypointIndexForWaypointName fms shared with
      | none => fms
      | some (li, _) =>
          { fms with legCollection :=
              pre.map (fun s => buildLeg lib s.data) ++ fms.legCollection.drop li }

/-! ## Procedure replacement -/

/-- Index of the first leg that is a procedure of the given category. -/
def findLegIndexForProcedureType (fms : Fms) (pt : ProcedureType) : Option Nat :=
  go fms.legCollection
where
  go : List LegModel → Option Nat
    | [] => none
    | leg :: rest =>
        if leg.isProcedure = true ∧ leg.procedureType = some pt then some 0
        else (go rest).map (· + 1)

/-- Add a leg built from a route string at the front of the plan
(`prependLeg`). -/
def prependLeg (lib : NavigationLibrary) (fms : Fms) (routeString : String) : Fms :=
  { fms with legCollection := buildLeg lib routeString.data :: fms.legCollection }

/-- Replace the departure procedure (spec §4.3 `replaceDepartureProcedure`):
no-op when the requested route already equals the serialized current route;
otherwise remove any existing SID leg and insert the newly expanded leg at
the front; with no prior SID leg the new leg is simply prepended. -/
def replaceDepartureProcedure (lib : NavigationLibrary) (fms : Fms) (routeString : String) : Fms :=
  if toLowerStr routeString = currentRoute fms then fms
  else
    match findLegIndexForProcedureType fms .sid with
    | none => prependLeg lib fms routeString
    | some i =>
        { fms with legCollection :=
            buildLeg lib routeString.data :: fms.legCollection.eraseIdx i }

/-! ## Advancement traces (for the history invariant) -/

/-- An advancement operation on the engine. -/
inductive RouteOp where
  | next
  | skip (n : String)
deriving DecidableEq

/-- Apply one advancement operation. -/
def applyOp (fms : Fms) : RouteOp → Fms
  | .next => nextWaypoint fms
  | .skip n => skipToWaypoint fms n

/-- The route strings of the legs an operation removes from the front of
the plan, in removal order. -/
def opDropped (fms : Fms) : RouteOp → List String
  | .next => nextDropped fms
  | .skip n => skipDropped fms n

/-- Apply a sequence of advancement operations. -/
def applyOps (fms : Fms) : List RouteOp → Fms
  | [] => fms
  | op :: ops => applyOps (applyOp fms op) ops

/-- All route strings removed from the front of the plan over a sequence of
operations, in traversal order. -/
def droppedDuring (fms : Fms) : List RouteOp → List String
  | [] => []
  | op :: ops => opDropped fms op ++ droppedDuring (applyOp fms op) ops

/-! ## Pilot (embedded from the Pilot source) -/

/-- The autopilot mode-control state the pilot writes into. -/
structure ModeController where
  altitude : Int
  altitudeMode : String
  shouldExpediteAltitudeChange : Bool
deriving DecidableEq

/-- The assignable-altitude limits of the active airport. -/
structure AirportModel where
  minAssignableAltitude : Int
  maxAssignableAltitude : Int
deriving DecidableEq

/-- Modelled from the spec: the `clamp` helper from `math/core` is not
among the provided sources; standard clamping of a value to `[lo, hi]`. -/
def clamp (lo value hi : Int) : Int :=
  if value < lo then lo else if hi < value then hi else value

/-- Embedded from `Pilot.maintainAltitude`: clamp the requested altitude to
the assignable range, add one foot at a soft ceiling, write the result and
the HOLD mode into the mode controller, set the expedite flag on request,
and report success unconditionally. The radio readback text (external
radio utilities) is not modelled. -/
def maintainAltitude (currentAltitude altitude : Int) (expedite shouldUseSoftCeiling : Bool)
    (airport : AirportModel) (mcp : ModeController) : Bool × ModeController :=
  let clamped := clamp airport.minAssignableAltitude altitude airport.maxAssignableAltitude
  let clamped :=
    if shouldUseSoftCeiling = true ∧ clamped = airport.maxAssignableAltitude then clamped + 1
    else clamped
  let mcp1 : ModeController := { mcp with altitude := clamped, altitudeMode := "HOLD" }
  let mcp2 : ModeController :=
    if expedite = true then { mcp1 with shouldExpediteAltitudeChange := true } else mcp1
  (true, mcp2)

/-- Embedded from `Pilot.initiateHoldingPattern`: with no resolvable hold
position the command fails before touching the FMS; otherwise the hold is
delegated to `createLegWithHoldingPattern` with the `@fix` segment, or the
`GPS` sentinel when no fix was named. `inboundDirection` stands for the
radio-cardinal name of the inbound heading (external radio utility). -/
def initiateHoldingPattern (fms : Fms) (inboundDirection turnDirection legLength : String)
    (fixName : Option String) (holdPosition : Option (Int × Int)) : (Bool × String) × Fms :=
  let fixLabel := match fixName with | some n => n | none => "null"
  match holdPosition with
  | none => ((false, "unable to find fix " ++ fixLabel), fms)
  | some pos =>
      match fixName with
      | none =>
          ((true, "hold " ++ inboundDirection ++ " of present position, " ++ turnDirection ++
              " turns, " ++ legLength ++ " legs"),
           createLegWithHoldingPattern fms turnDirection legLength "GPS" pos)
      | some n =>
          ((true, "proceed direct " ++ n ++ " and hold inbound, " ++ turnDirection ++
              " turns, " ++ legLength ++ " legs"),
           createLegWithHoldingPattern fms turnDirection legLength ("@" ++ n) pos)

/-! ## AircraftCommander.run (embedded from the AircraftCommander source) -/

/-- The command-name to handler-name table (`COMMANDS`), own properties
only, in source order. -/
def COMMANDS : List (String × String) :=
  [("abort", "runAbort"), ("altitude", "runAltitude"), ("clearedAsFiled", "runClearedAsFiled"),
   ("climbViaSID", "runClimbViaSID"), ("debug", "runDebug"), ("delete", "runDelete"),
   ("descendViaStar", "runDescendViaStar"), ("direct", "runDirect"), ("fix", "runFix"),
   ("flyPresentHeading", "runFlyPresentHeading"), ("heading", "runHeading"),
   ("hold", "runHold"), ("land", "runLanding"), ("moveDataBlock", "runMoveDataBlock"),
   ("route", "runRoute"), ("reroute", "runReroute"), ("sayRoute", "runSayRoute"),
   ("sid", "runSID"), ("speed", "runSpeed"), ("star", "runSTAR"),
   ("takeoff", "runTakeoff"), ("taxi", "runTaxi")]

/-- The members every JavaScript object literal inherits from
`Object.prototype`; reading `COMMANDS[command]` for one of these names
yields a truthy function/object value rather than `undefined`. -/
def objectPrototypeMembers : List String :=
  ["constructor", "hasOwnProperty", "isPrototypeOf", "propertyIsEnumerable",
   "toLocaleString", "toString", "valueOf", "__defineGetter__", "__defineSetter__",
   "__lookupGetter__", "__lookupSetter__", "__proto__"]

/-- The methods defined on the `AircraftCommander` class (note: `runDebug`
is referenced by `COMMANDS` but never defined). -/
def aircraftCommanderMethods : List String :=
  ["runCommands", "run", "runAltitude", "runHeading", "runClearedAsFiled", "runClimbViaSID",
   "runDescendViaStar", "runSpeed", "runHold", "runDirect", "runFlyPresentHeading",
   "runSayRoute", "runSID", "runSTAR", "runMoveDataBlock", "runRoute", "runReroute",
   "runTaxi", "_changeFromTaxiToWaiting", "runTakeoff", "runLanding", "runAbort",
   "runDelete", "runFix"]

/-- The observable outcome of `AircraftCommander.run`. -/
inductive RunOutcome where
  | result (success : Bool) (readback : String)
  | dispatched (handlerName : String)
  | typeError
deriving DecidableEq

/-- Embedded from `AircraftCommander.run` under JavaScript property-lookup
semantics: `COMMANDS[command]` finds an own entry first; failing that, a
member inherited from `Object.prototype` still yields a truthy `call_func`,
and the subsequent `this[call_func](...)` call on a non-method value throws
a `TypeError`; only a fully falsy lookup reaches the
`[false, 'say again?']` early return. -/
def aircraftCommanderRun (command : String) : RunOutcome :=
  match COMMANDS.find? (fun p => decide (p.1 = command)) with
  | some p =>
      if aircraftCommanderMethods.any (fun m => decide (m = p.2)) then .dispatched p.2
      else .typeError
  | none =>
      if objectPrototypeMembers.any (fun m => decide (m = command)) then .typeError
      else .result false "say again?"

/-! ## Concrete engines used by the scenario parts of the claims -/

/-- The complex arrival plan the Fms test suite is built around. -/
def complexRouteFms : Fms := initFms navigationLibraryFixture "COWBY..BIKKR..DAG.KEPEC3.KLAS"

/-- The plan used by the shared-route-segment amendment scenario. -/
def c1PlanFms : Fms := initFms navigationLibraryFixture "COWBY..SUNST..BIKKR..DAG.KEPEC3.KLAS"

/-- An engine with no legs at all (leg collection destroyed). -/
def emptyFms : Fms := { legCollection := [], previousRouteSegments := [] }

/-! ## History lemmas -/

theorem updateSegments_nodup (l : List String) (s : String) (h : l.Nodup) :
    (updateSegments l s).Nodup := by
  unfold updateSegments
  split
  · exact h
  · rename_i hs
    simpa [List.nodup_append] using ⟨h, hs⟩

theorem exists_append_updateSegments (l : List String) (s : String) :
    ∃ t, updateSegments l s = l ++ t := by
  unfold updateSegments
  split
  · exact ⟨[], by simp⟩
  · exact ⟨[s], rfl⟩

theorem mem_updateSegments_self (l : List String) (s : String) : s ∈ updateSegments l s := by
  unfold updateSegments
  split
  · assumption
  · simp

theorem mem_updateSegments_of_mem (l : List String) (s x : String) (h : x ∈ l) :
    x ∈ updateSegments l s := by
  unfold updateSegments
  split
  · exact h
  · simp [h]

theorem recordSegments_nodup (ds : List String) :
    ∀ l, l.Nodup → (recordSegments l ds).Nodup := by
  induction ds with
  | nil => intro l h; exact h
  | cons d ds ih =>
    intro l h
    exact ih (updateSegments l d) (updateSegments_nodup l d h)

theorem exists_append_recordSegments (ds : List String) :
    ∀ l, ∃ t, recordSegments l ds = l ++ t := by
  induction ds with
  | nil => intro l; exact ⟨[], by simp [recordSegments]⟩
  | cons d ds ih =>
    intro l
    obtain ⟨t1, ht1⟩ := exists_append_updateSegments l d
    obtain ⟨t2, ht2⟩ := ih (updateSegments l d)
    refine ⟨t1 ++ t2, ?_⟩
    show recordSegments (updateSegments l d) ds = l ++ (t1 ++ t2)
    rw [ht2, ht1, List.append_assoc]

theorem mem_recordSegments_of_mem (ds : List String) :
    ∀ l x, x ∈ l → x ∈ recordSegments l ds := by
  induction ds with
  | nil => intro l x h; exact h
  | cons d ds ih =>
    intro l x h
    exact ih (updateSegments l d) x (mem_updateSegments_of_mem l d x h)

theorem mem_recordSegments_of_mem_dropped (ds : List String) :
    ∀ l x, x ∈ ds → x ∈ recordSegments l ds := by
  induction ds with
  | nil => intro l x h; cases h
  | cons d ds ih =>
    intro l x h
    rcases List.mem_cons.mp h with h | h
    · subst h
      exact mem_recordSegments_of_mem ds (updateSegments l x) x (mem_updateSegments_self l x)
    · exact ih (updateSegments l d) x h

theorem recordSegments_append (l : List String) (ds es : List String) :
    recordSegments l (ds ++ es) = recordSegments (recordSegments l ds) es := by
  unfold recordSegments
  exact List.foldl_append _ _ _ _

theorem prev_applyOp (fms : Fms) (op : RouteOp) :
    (applyOp fms op).previousRouteSegments =
      recordSegments fms.previousRouteSegments (opDropped fms op) := by
  cases op <;> rfl

theorem prev_applyOps (ops : List RouteOp) :
    ∀ fms, (applyOps fms ops).previousRouteSegments =
      recordSegments fms.previousRouteSegments (droppedDuring fms ops) := by
  induction ops with
  | nil => intro fms; simp [applyOps, droppedDuring, recordSegments]
  | cons op ops ih =>
    intro fms
    show (applyOps (applyOp fms op) ops).previousRouteSegments = _
    rw [ih (applyOp fms op), prev_applyOp,
      show droppedDuring fms (op :: ops) =
        opDropped fms op ++ droppedDuring (applyOp fms op) ops from rfl,
      recordSegments_append]

/-- C3: over any sequence of advancement operations, the history equals the
fold of the dropped-leg trace through the append-once recorder; it stays
duplicate-free; it only ever grows by appending (so recording is in
traversal order); and every route string dropped from the front of the plan
is a member of the final history. -/
theorem advancement_records_dropped_legs (fms : Fms) (ops : List RouteOp)
    (h : fms.previousRouteSegments.Nodup) :
    (applyOps fms ops).previousRouteSegments =
        recordSegments fms.previousRouteSegments (droppedDuring fms ops)
    ∧ (applyOps fms ops).previousRouteSegments.Nodup
    ∧ (∃ t, (applyOps fms ops).previousRouteSegments = fms.previousRouteSegments ++ t)
    ∧ ∀ s ∈ droppedDuring fms ops, s ∈ (applyOps fms ops).previousRouteSegments := by
  have hmain := prev_applyOps ops fms
  refine ⟨hmain, ?_, ?_, ?_⟩
  · rw [hmain]
    exact recordSegments_nodup _ _ h
  · rw [hmain]
    exact exists_append_recordSegments _ _
  · intro s hs
    rw [hmain]
    exact mem_recordSegments_of_mem_dropped _ _ s hs

/-- Witness for C3 at the complex arrival plan: two waypoint advances
followed by a skip to the final fix. -/
theorem advancement_records_dropped_legs_witness :
    complexRouteFms.previousRouteSegments.Nodup
    ∧ ∀ s ∈ droppedDuring complexRouteFms [RouteOp.next, RouteOp.next, RouteOp.skip "prino"],
        s ∈ (applyOps complexRouteFms
              [RouteOp.next, RouteOp.next, RouteOp.skip "prino"]).previousRouteSegments :=
  ⟨by decide,
   (advancement_records_dropped_legs complexRouteFms
      [RouteOp.next, RouteOp.next, RouteOp.skip "prino"] (by decide)).2.2.2⟩

/-! ## Search and splice lemmas -/

theorem listGet?_drop (l : List α) :
    ∀ i a, listGet? l i = some a → l.drop i = a :: l.drop (i + 1) := by
  induction l with
  | nil => intro i a h; cases i <;> simp [listGet?] at h
  | cons x xs ih =>
    intro i a h
    cases i with
    | zero =>
      simp [listGet?] at h
      subst h
      rfl
    | succ i =>
      simp only [listGet?] at h
      simpa using ih i a h

theorem listGet?_modifyAt (f : α → α) :
    ∀ (l : List α) i a, listGet? l i = some a →
      listGet? (modifyAt i f l) i = some (f a) := by
  intro l
  induction l with
  | nil => intro i a h; cases i <;> simp [listGet?] at h
  | cons x xs ih =>
    intro i a h
    cases i with
    | zero =>
      simp [listGet?] at h
      subst h
      rfl
    | succ i =>
      simp only [listGet?] at h
      simpa [modifyAt, listGet?] using ih i a h

theorem take_modifyAt (f : α → α) :
    ∀ (l : List α) i, (modifyAt i f l).take i = l.take i := by
  intro l
  induction l with
  | nil => intro i; simp [modifyAt]
  | cons x xs ih =>
    intro i
    cases i with
    | zero => rfl
    | succ i => simp [modifyAt, List.take, ih i]

theorem drop_modifyAt_at (f : α → α) :
    ∀ (l : List α) i a, listGet? l i = some a →
      (modifyAt i f l).drop i = f a :: l.drop (i + 1) := by
  intro l
  induction l with
  | nil => intro i a h; cases i <;> simp [listGet?] at h
  | cons x xs ih =>
    intro i a h
    cases i with
    | zero =>
      simp [listGet?] at h
      subst h
      rfl
    | succ i =>
      simp only [listGet?] at h
      simpa [modifyAt] using ih i a h

theorem findWpIdx_some_name (n : String) :
    ∀ (ws : List WaypointModel) j, findWpIdx n ws = some j →
      ∃ w, listGet? ws j = some w ∧ w.name = n := by
  intro ws
  induction ws with
  | nil => intro j h; simp [findWpIdx] at h
  | cons w ws ih =>
    intro j h
    rw [findWpIdx] at h
    split at h
    · rename_i hw
      cases h
      exact ⟨w, rfl, hw⟩
    · cases hj : findWpIdx n ws with
      | none => rw [hj] at h; cases h
      | some j0 =>
        rw [hj] at h
        simp at h
        subst h
        obtain ⟨w0, hget, hname⟩ := ih j0 hj
        exact ⟨w0, by simpa [listGet?] using hget, hname⟩

theorem findWpIdx_some_first (n : String) :
    ∀ (ws : List WaypointModel) j, findWpIdx n ws = some j →
      ∀ k w, k < j → listGet? ws k = some w → w.name ≠ n := by
  intro ws
  induction ws with
  | nil => intro j h; simp [findWpIdx] at h
  | cons w ws ih =>
    intro j h k w0 hk hget
    rw [findWpIdx] at h
    split at h
    · cases h; omega
    · rename_i hw
      cases hj : findWpIdx n ws with
      | none => rw [hj] at h; cases h
      | some j0 =>
        rw [hj] at h
        simp at h
        subst h
        cases k with
        | zero =>
          simp [listGet?] at hget
          subst hget
          exact hw
        | succ k =>
          simp only [listGet?] at hget
          exact ih j0 hj k w0 (by omega) hget

theorem findWpIdx_none (n : String) :
    ∀ (ws : List WaypointModel), findWpIdx n ws = none → ∀ w ∈ ws, w.name ≠ n := by
  intro ws
  induction ws with
  | nil => intro _ w hw; cases hw
  | cons w ws ih =>
    intro h w0 hw0
    rw [findWpIdx] at h
    split at h
    · cases h
    · rename_i hw
      rcases List.mem_cons.mp hw0 with h0 | h0
      · subst h0; exact hw
      · cases hj : findWpIdx n ws with
        | none => exact ih hj w0 h0
        | some j0 => rw [hj] at h; cases h

theorem findLegWpAux_some (n : String) :
    ∀ (legs : List LegModel) li wi, findLegWpAux n legs = some (li, wi) →
      ∃ leg, listGet? legs li = some leg
        ∧ findWpIdx n leg.waypointCollection = some wi
        ∧ ∀ k leg', k < li → listGet? legs k = some leg' →
            findWpIdx n leg'.waypointCollection = none := by
  intro legs
  induction legs with
  | nil => intro li wi h; simp [findLegWpAux] at h
  | cons leg rest ih =>
    intro li wi h
    rw [findLegWpAux] at h
    cases hw : findWpIdx n leg.waypointCollection with
    | some j =>
      rw [hw] at h
      cases h
      refine ⟨leg, rfl, hw, ?_⟩
      intro k leg' hk hg
      omega
    | none =>
      rw [hw] at h
      cases ha : findLegWpAux n rest with
      | none => rw [ha] at h; cases h
      | some p =>
        obtain ⟨li0, wi0⟩ := p
        rw [ha] at h
        simp only [Option.map] at h
        cases h
        obtain ⟨leg0, hget, hfw, hfirst⟩ := ih li0 wi ha
        refine ⟨leg0, by simpa [listGet?] using hget, hfw, ?_⟩
        intro k leg' hk hg
        cases k with
        | zero =>
          simp [listGet?] at hg
          subst hg
          exact hw
        | succ k =>
          simp only [listGet?] at hg
          exact hfirst k leg' (by omega) hg

theorem skipLegs_found (fms : Fms) (nm : String) (li wi : Nat) (leg : LegModel)
    (hf : findLegAndWaypointIndexForWaypointName fms (toLowerStr nm) = some (li, wi))
    (hd : listGet? fms.legCollection li = some leg) :
    skipLegs fms nm =
      { leg with waypointCollection := leg.waypointCollection.drop wi }
        :: fms.legCollection.drop (li + 1) := by
  unfold skipLegs
  simp only [hf, listGet?_drop fms.legCollection li leg hd]

theorem skipDropped_found (fms : Fms) (nm : String) (li wi : Nat)
    (hf : findLegAndWaypointIndexForWaypointName fms (toLowerStr nm) = some (li, wi)) :
    skipDropped fms nm = (fms.legCollection.take li).map (fun l => l.routeString) := by
  unfold skipDropped
  rw [hf]

theorem findWpIdx_modifyAt (n : String) (f : WaypointModel → WaypointModel)
    (hf : ∀ w, (f w).name = w.name) :
    ∀ (ws : List WaypointModel) i, findWpIdx n (modifyAt i f ws) = findWpIdx n ws := by
  intro ws
  induction ws with
  | nil => intro i; simp [modifyAt]
  | cons w ws ih =>
    intro i
    cases i with
    | zero => simp [modifyAt, findWpIdx, hf w]
    | succ i => simp [modifyAt, findWpIdx, ih i]

theorem findLegWpAux_modifyAt (n : String) (g : LegModel → LegModel)
    (hg : ∀ leg, findWpIdx n (g leg).waypointCollection = findWpIdx n leg.waypointCollection) :
    ∀ (legs : List LegModel) i, findLegWpAux n (modifyAt i g legs) = findLegWpAux n legs := by
  intro legs
  induction legs with
  | nil => intro i; simp [modifyAt]
  | cons leg rest ih =>
    intro i
    cases i with
    | zero => simp [modifyAt, findLegWpAux, hg leg]
    | succ i => simp [modifyAt, findLegWpAux, ih i]

theorem map_name_modifyAt (f : WaypointModel → WaypointModel)
    (hf : ∀ w, (f w).name = w.name) :
    ∀ (ws : List WaypointModel) i,
      (modifyAt i f ws).map (fun w => w.name) = ws.map (fun w => w.name) := by
  intro ws
  induction ws with
  | nil => intro i; simp [modifyAt]
  | cons w ws ih =>
    intro i
    cases i with
    | zero => simp [modifyAt, hf w]
    | succ i => simp [modifyAt, ih i]

theorem allWaypoints_names_modifyAt (g : LegModel → LegModel)
    (hg : ∀ leg, (g leg).waypointCollection.map (fun w => w.name) =
        leg.waypointCollection.map (fun w => w.name)) :
    ∀ (legs : List LegModel) i,
      (allWaypoints (modifyAt i g legs)).map (fun w => w.name) =
        (allWaypoints legs).map (fun w => w.name) := by
  intro legs
  induction legs with
  | nil => intro i; simp [modifyAt]
  | cons leg rest ih =>
    intro i
    cases i with
    | zero => simp [modifyAt, allWaypoints, hg leg]
    | succ i => simp [modifyAt, allWaypoints, ih i]

theorem allWaypoints_decompose :
    ∀ (legs : List LegModel) li leg, listGet? legs li = some leg →
      ∃ pre, allWaypoints legs =
        pre ++ (leg.waypointCollection ++ allWaypoints (legs.drop (li + 1))) := by
  intro legs
  induction legs with
  | nil => intro li leg h; cases li <;> simp [listGet?] at h
  | cons x xs ih =>
    intro li leg h
    cases li with
    | zero =>
      simp [listGet?] at h
      subst h
      exact ⟨[], by simp [allWaypoints]⟩
    | succ li =>
      simp only [listGet?] at h
      obtain ⟨pre, hpre⟩ := ih li leg h
      refine ⟨x.waypointCollection ++ pre, ?_⟩
      simp [allWaypoints, hpre]

theorem sublist_drop (l : List α) : ∀ n, List.Sublist (l.drop n) l := by
  induction l with
  | nil => intro n; simp
  | cons x xs ih =>
    intro n
    cases n with
    | zero => simp
    | succ n =>
      show List.Sublist (xs.drop n) (x :: xs)
      exact List.Sublist.cons x (ih n)

theorem allWaypoints_skipLegs_sublist (fms : Fms) (nm : String) (li wi : Nat) (leg : LegModel)
    (hf : findLegAndWaypointIndexForWaypointName fms (toLowerStr nm) = some (li, wi))
    (hd : listGet? fms.legCollection li = some leg) :
    List.Sublist (allWaypoints (skipLegs fms nm)) (allWaypoints fms.legCollection) := by
  rw [skipLegs_found fms nm li wi leg hf hd]
  obtain ⟨pre, hpre⟩ := allWaypoints_decompose fms.legCollection li leg hd
  rw [hpre]
  have h1 : allWaypoints
      ({ leg with waypointCollection := leg.waypointCollection.drop wi }
        :: fms.legCollection.drop (li + 1)) =
      leg.waypointCollection.drop wi ++ allWaypoints (fms.legCollection.drop (li + 1)) := rfl
  rw [h1]
  have h2 : List.Sublist
      (leg.waypointCollection.drop wi ++ allWaypoints (fms.legCollection.drop (li + 1)))
      (leg.waypointCollection ++ allWaypoints (fms.legCollection.drop (li + 1))) :=
    List.Sublist.append (sublist_drop leg.waypointCollection wi) (List.Sublist.refl _)
  have h3 : List.Sublist
      (leg.waypointCollection ++ allWaypoints (fms.legCollection.drop (li + 1)))
      (pre ++ (leg.waypointCollection ++ allWaypoints (fms.legCollection.drop (li + 1)))) := by
    have h4 := List.Sublist.append (List.nil_sublist pre)
      (List.Sublist.refl (leg.waypointCollection ++ allWaypoints (fms.legCollection.drop (li + 1))))
    rw [List.nil_append] at h4
    exact h4
  exact h2.trans h3

/-- C4: `skipToWaypoint` is a no-op when the requested name already names
the current waypoint; otherwise the match is the first waypoint in leg
order carrying the lowercased name (no earlier leg and no earlier waypoint
of the matching leg carries it), every leg strictly before it is discarded
with its route string folded append-once into the history, and the
matching leg becomes the front leg with its preceding waypoints removed. -/
theorem skipToWaypoint_spec :
    (∀ (fms : Fms) (nm : String) (leg : LegModel) (rest : List LegModel)
        (w : WaypointModel) (ws : List WaypointModel),
        fms.legCollection = leg :: rest →
        leg.waypointCollection = w :: ws →
        w.name = toLowerStr nm →
        skipToWaypoint fms nm = fms)
    ∧ (∀ (fms : Fms) (nm : String) (li wi : Nat),
        findLegAndWaypointIndexForWaypointName fms (toLowerStr nm) = some (li, wi) →
        ∃ leg, listGet? fms.legCollection li = some leg
          ∧ (∃ w, listGet? leg.waypointCollection wi = some w ∧ w.name = toLowerStr nm)
          ∧ (∀ k leg', k < li → listGet? fms.legCollection k = some leg' →
              ∀ w0 ∈ leg'.waypointCollection, w0.name ≠ toLowerStr nm)
          ∧ (∀ j w0, j < wi → listGet? leg.waypointCollection j = some w0 →
              w0.name ≠ toLowerStr nm)
          ∧ (skipToWaypoint fms nm).legCollection =
              { leg with waypointCollection := leg.waypointCollection.drop wi }
                :: fms.legCollection.drop (li + 1)
          ∧ (skipToWaypoint fms nm).previousRouteSegments =
              recordSegments fms.previousRouteSegments
                ((fms.legCollection.take li).map (fun l => l.routeString))) := by
  constructor
  · intro fms nm leg rest w ws hleg hwps hname
    have hfind : findLegAndWaypointIndexForWaypointName fms (toLowerStr nm) = some (0, 0) := by
      unfold findLegAndWaypointIndexForWaypointName
      rw [hleg, findLegWpAux, hwps, findWpIdx, if_pos hname]
    have h1 : skipLegs fms nm = fms.legCollection := by
      unfold skipLegs
      simp only [hfind, hleg]
      rfl
    have h2 : skipDropped fms nm = [] := by
      unfold skipDropped
      simp only [hfind]
      rfl
    calc skipToWaypoint fms nm
        = ⟨skipLegs fms nm,
           recordSegments fms.previousRouteSegments (skipDropped fms nm)⟩ := rfl
      _ = fms := by rw [h1, h2]; rfl
  · intro fms nm li wi hfind
    obtain ⟨leg, hget, hfw, hfirstLegs⟩ :=
      findLegWpAux_some (toLowerStr nm) fms.legCollection li wi hfind
    obtain ⟨w, hwget, hwname⟩ :=
      findWpIdx_some_name (toLowerStr nm) leg.waypointCollection wi hfw
    refine ⟨leg, hget, ⟨w, hwget, hwname⟩, ?_, ?_, ?_, ?_⟩
    · intro k leg' hk hgetk w0 hw0
      exact findWpIdx_none (toLowerStr nm) leg'.waypointCollection
        (hfirstLegs k leg' hk hgetk) w0 hw0
    · intro j w0 hj hgetj
      exact findWpIdx_some_first (toLowerStr nm) leg.waypointCollection wi hfw j w0 hj hgetj
    · exact skipLegs_found fms nm li wi leg hfind hget
    · show recordSegments _ (skipDropped fms nm) = _
      rw [skipDropped_found fms nm li wi hfind]

/-- Witness for C4: skipping to the already-current `cowby` waypoint is a
no-op, and skipping to `SUNST` (matched case-insensitively inside the
KEPEC3 procedure leg) trims the plan there. -/
theorem skipToWaypoint_spec_witness :
    (complexRouteFms.legCollection =
        buildLeg navigationLibraryFixture ("cowby".data) ::
          [buildLeg navigationLibraryFixture ("bikkr".data),
           buildLeg navigationLibraryFixture ("dag.kepec3.klas".data)])
    ∧ skipToWaypoint complexRouteFms "cowby" = complexRouteFms
    ∧ findLegAndWaypointIndexForWaypointName complexRouteFms (toLowerStr "SUNST") = some (2, 2)
    ∧ ∃ leg, listGet? complexRouteFms.legCollection 2 = some leg
        ∧ (∃ w, listGet? leg.waypointCollection 2 = some w ∧ w.name = toLowerStr "SUNST")
        ∧ (∀ k leg', k < 2 → listGet? complexRouteFms.legCollection k = some leg' →
            ∀ w0 ∈ leg'.waypointCollection, w0.name ≠ toLowerStr "SUNST")
        ∧ (∀ j w0, j < 2 → listGet? leg.waypointCollection j = some w0 →
            w0.name ≠ toLowerStr "SUNST")
        ∧ (skipToWaypoint complexRouteFms "SUNST").legCollection =
            { leg with waypointCollection := leg.waypointCollection.drop 2 }
              :: complexRouteFms.legCollection.drop (2 + 1)
        ∧ (skipToWaypoint complexRouteFms "SUNST").previousRouteSegments =
            recordSegments complexRouteFms.previousRouteSegments
              ((complexRouteFms.legCollection.take 2).map (fun l => l.routeString)) :=
  ⟨by decide,
   skipToWaypoint_spec.1 complexRouteFms "cowby"
     (buildLeg navigationLibraryFixture ("cowby".data))
     [buildLeg navigationLibraryFixture ("bikkr".data),
      buildLeg navigationLibraryFixture ("dag.kepec3.klas".data)]
     { name := "cowby" } [] (by decide) (by decide) (by decide),
   by decide,
   skipToWaypoint_spec.2 complexRouteFms "SUNST" 2 2 (by decide)⟩

/-- C5: holding at a fix that already exists in the legs attaches the hold
metadata to that exact waypoint object in place, makes it the current
waypoint, and creates no duplicate: when the upcoming waypoint names were
duplicate-free before, they remain so afterwards. -/
theorem createLegWithHoldingPattern_existing_fix
    (fms : Fms) (td ll seg : String) (pos : Int × Int) (li wi : Nat)
    (hseg : seg ≠ "GPS")
    (hf : findLegAndWaypointIndexForWaypointName fms (toLowerStr (stripAt seg)) = some (li, wi))
    (hnodup : (allNames fms).Nodup) :
    (∃ leg w, listGet? fms.legCollection li = some leg
        ∧ listGet? leg.waypointCollection wi = some w
        ∧ w.name = toLowerStr (stripAt seg)
        ∧ currentWaypoint? (createLegWithHoldingPattern fms td ll seg pos) =
            some (applyHold td ll w))
    ∧ (allNames (createLegWithHoldingPattern fms td ll seg pos)).Nodup := by
  obtain ⟨leg, hget, hfw, hearlier⟩ :=
    findLegWpAux_some (toLowerStr (stripAt seg)) fms.legCollection li wi hf
  obtain ⟨w, hwget, hwname⟩ :=
    findWpIdx_some_name (toLowerStr (stripAt seg)) leg.waypointCollection wi hfw
  have hres : createLegWithHoldingPattern fms td ll seg pos =
      skipToWaypoint (holdAmended fms td ll li wi) (toLowerStr (stripAt seg)) := by
    unfold createLegWithHoldingPattern
    rw [if_neg hseg]
    simp only [hf]
  have hfindAm : findLegAndWaypointIndexForWaypointName (holdAmended fms td ll li wi)
      (toLowerStr (toLowerStr (stripAt seg))) = some (li, wi) := by
    rw [toLowerStr_idem (stripAt seg)]
    show findLegWpAux (toLowerStr (stripAt seg)) (holdAmended fms td ll li wi).legCollection =
      some (li, wi)
    rw [show (holdAmended fms td ll li wi).legCollection =
        modifyAt li (attachHoldAt td ll wi) fms.legCollection from rfl]
    rw [findLegWpAux_modifyAt (toLowerStr (stripAt seg)) (attachHoldAt td ll wi)
      (fun l => findWpIdx_modifyAt (toLowerStr (stripAt seg))
        (applyHold td ll) (fun _ => rfl) l.waypointCollection wi)]
    exact hf
  have hgetAm : listGet? (holdAmended fms td ll li wi).legCollection li =
      some (attachHoldAt td ll wi leg) := by
    rw [show (holdAmended fms td ll li wi).legCollection =
        modifyAt li (attachHoldAt td ll wi) fms.legCollection from rfl]
    exact listGet?_modifyAt (attachHoldAt td ll wi) fms.legCollection li leg hget
  have hdropwps : (modifyAt wi (applyHold td ll) leg.waypointCollection).drop wi =
      applyHold td ll w :: leg.waypointCollection.drop (wi + 1) :=
    drop_modifyAt_at (applyHold td ll) leg.waypointCollection wi w hwget
  have hwrest : allWaypoints ((skipToWaypoint (holdAmended fms td ll li wi)
        (toLowerStr (stripAt seg))).legCollection) =
      applyHold td ll w ::
        (leg.waypointCollection.drop (wi + 1) ++
          allWaypoints ((holdAmended fms td ll li wi).legCollection.drop (li + 1))) := by
    rw [show (skipToWaypoint (holdAmended fms td ll li wi)
        (toLowerStr (stripAt seg))).legCollection =
        skipLegs (holdAmended fms td ll li wi) (toLowerStr (stripAt seg)) from rfl]
    rw [skipLegs_found (holdAmended fms td ll li wi) (toLowerStr (stripAt seg)) li wi
      (attachHoldAt td ll wi leg) hfindAm hgetAm]
    show (attachHoldAt td ll wi leg).waypointCollection.drop wi ++ _ = _
    rw [show (attachHoldAt td ll wi leg).waypointCollection =
        modifyAt wi (applyHold td ll) leg.waypointCollection from rfl]
    rw [hdropwps]
    simp
  constructor
  · refine ⟨leg, w, hget, hwget, hwname, ?_⟩
    rw [hres]
    show (allWaypoints ((skipToWaypoint (holdAmended fms td ll li wi)
        (toLowerStr (stripAt seg))).legCollection)).head? = _
    rw [hwrest]
    rfl
  · rw [hres]
    have hsub : List.Sublist
        (allWaypoints (skipLegs (holdAmended fms td ll li wi) (toLowerStr (stripAt seg))))
        (allWaypoints (holdAmended fms td ll li wi).legCollection) :=
      allWaypoints_skipLegs_sublist (holdAmended fms td ll li wi) (toLowerStr (stripAt seg))
        li wi (attachHoldAt td ll wi leg) hfindAm hgetAm
    have hnames : (allWaypoints (holdAmended fms td ll li wi).legCollection).map
        (fun w0 => w0.name) = (allWaypoints fms.legCollection).map (fun w0 => w0.name) := by
      rw [show (holdAmended fms td ll li wi).legCollection =
          modifyAt li (attachHoldAt td ll wi) fms.legCollection from rfl]
      exact allWaypoints_names_modifyAt (attachHoldAt td ll wi)
        (fun l => map_name_modifyAt (applyHold td ll) (fun _ => rfl) l.waypointCollection wi)
        fms.legCollection li
    have hsubnames : List.Sublist
        ((allWaypoints (skipLegs (holdAmended fms td ll li wi)
            (toLowerStr (stripAt seg)))).map (fun w0 => w0.name))
        (allNames fms) := by
      rw [show allNames fms = (allWaypoints fms.legCollection).map (fun w0 => w0.name) from rfl]
      rw [← hnames]
      exact List.Sublist.map _ hsub
    exact List.Nodup.sublist hsubnames hnodup

/-- Witness for C5: holding at `@BIKKR` on the complex arrival plan. -/
theorem createLegWithHoldingPattern_existing_fix_witness :
    ("@BIKKR" : String) ≠ "GPS"
    ∧ findLegAndWaypointIndexForWaypointName complexRouteFms
        (toLowerStr (stripAt "@BIKKR")) = some (1, 0)
    ∧ (allNames complexRouteFms).Nodup
    ∧ (allNames (createLegWithHoldingPattern complexRouteFms "left" "2min" "@BIKKR"
        (113, 6))).Nodup :=
  ⟨by decide, by decide, by decide,
   (createLegWithHoldingPattern_existing_fix complexRouteFms "left" "2min" "@BIKKR"
      (113, 6) 1 0 (by decide) (by decide) (by decide)).2⟩

theorem splitAtFirstShared_spec (fms : Fms) :
    ∀ (segs : List String) pre shared, splitAtFirstShared fms segs = some (pre, shared) →
      (∀ s ∈ pre, hasWaypointName fms s = false)
      ∧ hasWaypointName fms shared = true
      ∧ ∃ rest, segs = pre ++ shared :: rest := by
  intro segs
  induction segs with
  | nil => intro pre shared h; simp [splitAtFirstShared] at h
  | cons seg rest ih =>
    intro pre shared h
    rw [splitAtFirstShared] at h
    split at h
    · rename_i hTrue
      cases h
      exact ⟨by simp, hTrue, rest, rfl⟩
    · rename_i hFalse
      cases ha : splitAtFirstShared fms rest with
      | none => rw [ha] at h; cases h
      | some p =>
        obtain ⟨pre0, shared0⟩ := p
        rw [ha] at h
        simp only [Option.map] at h
        cases h
        obtain ⟨h1, h2, rest0, h3⟩ := ih pre0 shared ha
        refine ⟨?_, h2, rest0, by simp [h3]⟩
        intro s hs
        rcases List.mem_cons.mp hs with h0 | h0
        · subst h0
          simpa using hFalse
        · exact h1 s h0

/-- C1: when the current plan contains a fix named in the amendment,
`replaceRouteUpToSharedRouteSegment` prepends one freshly built leg per
amendment token preceding the first shared fix, in order, trims the
existing legs to begin exactly at the leg containing that fix, and leaves
the remainder of the plan and the history untouched; in particular
amending `COWBY..SUNST..BIKKR..DAG.KEPEC3.KLAS` with
`HITME..HOLDM..BIKKR..DAG` yields legs `hitme`, `holdm`, `bikkr` with the
`dag.kepec3.klas` leg unchanged. -/
theorem replaceRouteUpToSharedRouteSegment_spec :
    (∀ (lib : NavigationLibrary) (fms : Fms) (rs : String) (pre : List String)
        (shared : String) (li wi : Nat),
        splitAtFirstShared fms (amendmentSegments rs) = some (pre, shared) →
        findLegAndWaypointIndexForWaypointName fms shared = some (li, wi) →
        (replaceRouteUpToSharedRouteSegment lib fms rs).legCollection =
            pre.map (fun s => buildLeg lib s.data) ++ fms.legCollection.drop li
        ∧ (replaceRouteUpToSharedRouteSegment lib fms rs).previousRouteSegments =
            fms.previousRouteSegments
        ∧ (∀ s ∈ pre, hasWaypointName fms s = false)
        ∧ hasWaypointName fms shared = true
        ∧ (∃ restSegs, amendmentSegments rs = pre ++ shared :: restSegs)
        ∧ ∃ leg, listGet? fms.legCollection li = some leg
            ∧ ∃ w, listGet? leg.waypointCollection wi = some w ∧ w.name = shared)
    ∧ ((replaceRouteUpToSharedRouteSegment navigationLibraryFixture c1PlanFms
          "HITME..HOLDM..BIKKR..DAG").legCollection.map (fun l => l.routeString) =
            ["hitme", "holdm", "bikkr", "dag.kepec3.klas"]
        ∧ listGet? (replaceRouteUpToSharedRouteSegment navigationLibraryFixture c1PlanFms
            "HITME..HOLDM..BIKKR..DAG").legCollection 3 = listGet? c1PlanFms.legCollection 3
        ∧ (replaceRouteUpToSharedRouteSegment navigationLibraryFixture c1PlanFms
            "HITME..HOLDM..BIKKR..DAG").previousRouteSegments =
              c1PlanFms.previousRouteSegments) := by
  constructor
  · intro lib fms rs pre shared li wi hsplit hfind
    obtain ⟨hpre, hshared, rest, hsegs⟩ :=
      splitAtFirstShared_spec fms (amendmentSegments rs) pre shared hsplit
    obtain ⟨leg, hget, hfw, _⟩ := findLegWpAux_some shared fms.legCollection li wi hfind
    obtain ⟨w, hwget, hwname⟩ := findWpIdx_some_name shared leg.waypointCollection wi hfw
    have hrepl : replaceRouteUpToSharedRouteSegment lib fms rs =
        { fms with legCollection :=
            pre.map (fun s => buildLeg lib s.data) ++ fms.legCollection.drop li } := by
      unfold replaceRouteUpToSharedRouteSegment
      simp only [hsplit, hfind]
    rw [hrepl]
    exact ⟨rfl, rfl, hpre, hshared, ⟨rest, hsegs⟩, leg, hget, w, hwget, hwname⟩
  · exact ⟨by decide, by decide, by decide⟩

/-- Witness for C1: the published scenario, run through the general part of
the theorem. -/
theorem replaceRouteUpToSharedRouteSegment_spec_witness :
    splitAtFirstShared c1PlanFms (amendmentSegments "HITME..HOLDM..BIKKR..DAG") =
        some (["hitme", "holdm"], "bikkr")
    ∧ findLegAndWaypointIndexForWaypointName c1PlanFms "bikkr" = some (2, 0)
    ∧ (replaceRouteUpToSharedRouteSegment navigationLibraryFixture c1PlanFms
        "HITME..HOLDM..BIKKR..DAG").legCollection =
          (["hitme", "holdm"] : List String).map
              (fun s => buildLeg navigationLibraryFixture s.data)
            ++ c1PlanFms.legCollection.drop 2 :=
  ⟨by decide, by decide,
   (replaceRouteUpToSharedRouteSegment_spec.1 navigationLibraryFixture c1PlanFms
      "HITME..HOLDM..BIKKR..DAG" ["hitme", "holdm"] "bikkr" 2 0
      (by decide) (by decide)).1⟩

/-- C2: `isValidRouteAmendment` is true exactly when some dotless
(direct-fix) amendment segment that is not already recorded in the
consumed-segment history names an upcoming waypoint; on the complex plan
`HITME..HOLDM..BIKKR` is accepted and `HITME..HOLDM` rejected. -/
theorem isValidRouteAmendment_spec :
    (∀ (fms : Fms) (rs : String),
        isValidRouteAmendment fms rs = true ↔
          ∃ seg ∈ amendmentSegments rs,
            (∀ c ∈ seg.data, c ≠ '.')
            ∧ seg ∉ fms.previousRouteSegments
            ∧ ∃ w ∈ fms.waypoints, w.name = seg)
    ∧ isValidRouteAmendment complexRouteFms "HITME..HOLDM..BIKKR" = true
    ∧ isValidRouteAmendment complexRouteFms "HITME..HOLDM" = false := by
  refine ⟨?_, by decide, by decide⟩
  intro fms rs
  unfold isValidRouteAmendment hasWaypointName Fms.waypoints
  simp only [List.any_eq_true, Bool.and_eq_true, Bool.not_eq_true', List.any_eq_false,
    decide_eq_true_eq, decide_eq_false_iff_not]
  constructor
  · rintro ⟨seg, hseg, ⟨hdot, hprev⟩, w, hw, hwname⟩
    exact ⟨seg, hseg, hdot, hprev, w, hw, hwname⟩
  · rintro ⟨seg, hseg, hdot, hprev, w, hw, hwname⟩
    exact ⟨seg, hseg, ⟨hdot, hprev⟩, w, hw, hwname⟩

/-- C6: a hold request whose position could not be resolved returns an
error result and leaves the engine (legs and history) exactly as it was —
the failure is reported before any mutation. -/
theorem initiateHoldingPattern_unresolvable (fms : Fms)
    (inboundDirection turnDirection legLength : String) (fixName : Option String) :
    (initiateHoldingPattern fms inboundDirection turnDirection legLength fixName none).2 = fms
    ∧ (initiateHoldingPattern fms inboundDirection turnDirection legLength
        fixName none).1.1 = false :=
  ⟨rfl, rfl⟩

/-- C7: with no existing departure-procedure (SID) leg, and a requested
route differing from the serialized current route,
`replaceDepartureProcedure` prepends the newly built procedure leg and
touches nothing else; on an engine with no legs, `KLAS.TRALR6.MLF` leaves
exactly one leg whose route string is `klas.tralr6.mlf`. -/
theorem replaceDepartureProcedure_no_existing_sid :
    (∀ (lib : NavigationLibrary) (fms : Fms) (rs : String),
        findLegIndexForProcedureType fms ProcedureType.sid = none →
        toLowerStr rs ≠ currentRoute fms →
        (replaceDepartureProcedure lib fms rs).legCollection =
            buildLeg lib rs.data :: fms.legCollection
        ∧ (replaceDepartureProcedure lib fms rs).previousRouteSegments =
            fms.previousRouteSegments)
    ∧ ((replaceDepartureProcedure navigationLibraryFixture emptyFms
          "KLAS.TRALR6.MLF").legCollection.length = 1
        ∧ (replaceDepartureProcedure navigationLibraryFixture emptyFms
            "KLAS.TRALR6.MLF").legCollection.map (fun l => l.routeString) =
              ["klas.tralr6.mlf"]) := by
  constructor
  · intro lib fms rs h1 h2
    unfold replaceDepartureProcedure
    rw [if_neg h2]
    simp only [h1]
    exact ⟨rfl, rfl⟩
  · exact ⟨by decide, by decide⟩

/-- Witness for C7: the scenario input run through the general part of the
theorem. -/
theorem replaceDepartureProcedure_no_existing_sid_witness :
    findLegIndexForProcedureType emptyFms ProcedureType.sid = none
    ∧ toLowerStr "KLAS.TRALR6.MLF" ≠ currentRoute emptyFms
    ∧ (replaceDepartureProcedure navigationLibraryFixture emptyFms
        "KLAS.TRALR6.MLF").legCollection =
          buildLeg navigationLibraryFixture ("KLAS.TRALR6.MLF".data) :: emptyFms.legCollection :=
  ⟨by decide, by decide,
   (replaceDepartureProcedure_no_existing_sid.1 navigationLibraryFixture emptyFms
      "KLAS.TRALR6.MLF" (by decide) (by decide)).1⟩

theorem clamp_eq_max_min (lo v hi : Int) (h : lo ≤ hi) :
    clamp lo v hi = max lo (min v hi) := by
  rw [max_def, min_def]
  unfold clamp
  split_ifs <;> omega

/-- C9: `maintainAltitude` always reports success and writes into the mode
controller exactly the requested altitude clamped to the airport's
assignable range, plus one extra foot when the soft ceiling is in use and
the clamp lands on the maximum; the written value therefore stays within
[min, max + 1] even when it differs from the request, and the altitude
mode is set to HOLD. -/
theorem maintainAltitude_spec (currentAltitude altitude : Int)
    (expedite shouldUseSoftCeiling : Bool) (airport : AirportModel) (mcp : ModeController)
    (h : airport.minAssignableAltitude ≤ airport.maxAssignableAltitude) :
    (maintainAltitude currentAltitude altitude expedite shouldUseSoftCeiling
        airport mcp).1 = true
    ∧ (maintainAltitude currentAltitude altitude expedite shouldUseSoftCeiling
        airport mcp).2.altitude =
        (if shouldUseSoftCeiling = true
              ∧ max airport.minAssignableAltitude
                  (min altitude airport.maxAssignableAltitude) =
                airport.maxAssignableAltitude
          then max airport.minAssignableAltitude
              (min altitude airport.maxAssignableAltitude) + 1
          else max airport.minAssignableAltitude
              (min altitude airport.maxAssignableAltitude))
    ∧ (maintainAltitude currentAltitude altitude expedite shouldUseSoftCeiling
        airport mcp).2.altitudeMode = "HOLD"
    ∧ airport.minAssignableAltitude ≤
        (maintainAltitude currentAltitude altitude expedite shouldUseSoftCeiling
          airport mcp).2.altitude
    ∧ (maintainAltitude currentAltitude altitude expedite shouldUseSoftCeiling
        airport mcp).2.altitude ≤ airport.maxAssignableAltitude + 1 := by
  have hc1 : airport.minAssignableAltitude ≤
      max airport.minAssignableAltitude (min altitude airport.maxAssignableAltitude) :=
    le_max_left _ _
  have hc2 : max airport.minAssignableAltitude
      (min altitude airport.maxAssignableAltitude) ≤ airport.maxAssignableAltitude :=
    max_le h (min_le_right _ _)
  have hformula : (maintainAltitude currentAltitude altitude expedite shouldUseSoftCeiling
      airport mcp).2.altitude =
      (if shouldUseSoftCeiling = true
            ∧ max airport.minAssignableAltitude
                (min altitude airport.maxAssignableAltitude) =
              airport.maxAssignableAltitude
        then max airport.minAssignableAltitude
            (min altitude airport.maxAssignableAltitude) + 1
        else max airport.minAssignableAltitude
            (min altitude airport.maxAssignableAltitude)) := by
    unfold maintainAltitude
    rw [clamp_eq_max_min _ _ _ h]
    cases expedite <;> rfl
  refine ⟨rfl, hformula, ?_, ?_, ?_⟩
  · show (maintainAltitude currentAltitude altitude expedite shouldUseSoftCeiling
        airport mcp).2.altitudeMode = "HOLD"
    unfold maintainAltitude
    cases expedite <;> rfl
  · rw [hformula]
    split_ifs <;> omega
  · rw [hformula]
    split_ifs <;> omega

/-- Witness for C9: requesting 50000 feet at an airport whose assignable
range tops out at 41000 with the soft ceiling active writes 41001 — a value
different from the request — and still reports success. -/
theorem maintainAltitude_spec_witness :
    ((3000 : Int) ≤ (41000 : Int))
    ∧ ((maintainAltitude 5000 50000 false true
          { minAssignableAltitude := 3000, maxAssignableAltitude := 41000 }
          { altitude := 0, altitudeMode := "OFF", shouldExpediteAltitudeChange := false }).1 = true
        ∧ (maintainAltitude 5000 50000 false true
            { minAssignableAltitude := 3000, maxAssignableAltitude := 41000 }
            { altitude := 0, altitudeMode := "OFF",
              shouldExpediteAltitudeChange := false }).2.altitude =
            (if (true : Bool) = true ∧ max (3000 : Int) (min 50000 41000) = 41000
              then max (3000 : Int) (min 50000 41000) + 1
              else max (3000 : Int) (min 50000 41000)))
    ∧ (maintainAltitude 5000 50000 false true
        { minAssignableAltitude := 3000, maxAssignableAltitude := 41000 }
        { altitude := 0, altitudeMode := "OFF",
          shouldExpediteAltitudeChange := false }).2.altitude ≠ 50000 :=
  ⟨by norm_num,
   ⟨(maintainAltitude_spec 5000 50000 false true
      { minAssignableAltitude := 3000, maxAssignableAltitude := 41000 }
      { altitude := 0, altitudeMode := "OFF", shouldExpediteAltitudeChange := false }
      (by norm_num)).1,
    (maintainAltitude_spec 5000 50000 false true
      { minAssignableAltitude := 3000, maxAssignableAltitude := 41000 }
      { altitude := 0, altitudeMode := "OFF", shouldExpediteAltitudeChange := false }
      (by norm_num)).2.1⟩,
   by decide⟩

/-- Counterexample for C10: `toString` is not an own key of the `COMMANDS`
table, yet `run` does not return the `[false, 'say again?']` result for
it — the inherited `Object.prototype.toString` member makes the lookup
truthy and the subsequent `this[call_func](...)` call throws a TypeError. -/
theorem aircraftCommanderRun_toString_counterexample :
    (∀ p ∈ COMMANDS, p.1 ≠ "toString")
    ∧ aircraftCommanderRun "toString" ≠ RunOutcome.result false "say again?"
    ∧ aircraftCommanderRun "toString" = RunOutcome.typeError := by
  decide

/-- C10 (amended): for every command name that is neither an own key of
`COMMANDS` nor a member inherited from `Object.prototype`, `run` returns
`[false, 'say again?']` without dispatching to any handler and without
throwing. -/
theorem aircraftCommanderRun_unknown_command (command : String)
    (h1 : COMMANDS.find? (fun p => decide (p.1 = command)) = none)
    (h2 : objectPrototypeMembers.any (fun m => decide (m = command)) = false) :
    aircraftCommanderRun command = RunOutcome.result false "say again?" := by
  unfold aircraftCommanderRun
  simp only [h1, h2]
  rfl

/-- Witness for C10's amended claim: the unknown command `frobnicate`. -/
theorem aircraftCommanderRun_unknown_command_witness :
    COMMANDS.find? (fun p => decide (p.1 = "frobnicate")) = none
    ∧ objectPrototypeMembers.any (fun m => decide (m = "frobnicate")) = false
    ∧ aircraftCommanderRun "frobnicate" = RunOutcome.result false "say again?" :=
  ⟨by decide, by decide,
   aircraftCommanderRun_unknown_command "frobnicate" (by decide) (by decide)⟩

theorem buildLeg_map_lowerChar (lib : NavigationLibrary) (seg : List Char) :
    buildLeg lib (seg.map lowerChar) = buildLeg lib seg := by
  unfold buildLeg
  rw [map_lowerChar_idem]

theorem map_buildLeg_lower (lib : NavigationLibrary) :
    ∀ (ls : List (List Char)),
      (ls.map (List.map lowerChar)).map (buildLeg lib) = ls.map (buildLeg lib) := by
  intro ls
  induction ls with
  | nil => rfl
  | cons s rest ih => simp [buildLeg_map_lowerChar, ih]

theorem map_map_lowerChar_idem :
    ∀ (ls : List (List Char)),
      (ls.map (List.map lowerChar)).map (List.map lowerChar) = ls.map (List.map lowerChar) := by
  intro ls
  induction ls with
  | nil => rfl
  | cons s rest ih => simp only [List.map_cons, map_lowerChar_idem, ih]

theorem currentRoute_initFms (lib : NavigationLibrary) (s : String) :
    currentRoute (initFms lib s) =
      ⟨joinSegs ((routeSegments s).map (List.map lowerChar))⟩ := by
  unfold currentRoute initFms buildLegCollection
  congr 1
  rw [List.map_map]
  rfl

theorem routeSegments_canonical (lib : NavigationLibrary) (s : String)
    (h : isValidRouteString s = true) :
    routeSegments (currentRoute (initFms lib s)) =
      (routeSegments s).map (List.map lowerChar) := by
  have hsegs_ok : ∀ seg ∈ routeSegments s, segOk seg = true := by
    intro seg hseg
    have hval : isValidSegmentTokens seg = true :=
      List.all_eq_true.mp h seg hseg
    have htoks : (splitDotsAux seg []).all (fun t => !t.isEmpty) = true := by
      unfold isValidSegmentTokens at hval
      rw [Bool.and_eq_true] at hval
      exact hval.1
    exact segOk_of_tokens_nonempty seg [] htoks
  have hne : (routeSegments s).map (List.map lowerChar) ≠ [] := by
    intro hnil
    exact splitSegsAux_ne_nil s.data [] (List.map_eq_nil_iff.mp hnil)
  have hok2 : ∀ t ∈ (routeSegments s).map (List.map lowerChar), segOk t = true := by
    intro t ht
    obtain ⟨seg, hseg, rfl⟩ := List.mem_map.mp ht
    rw [segOk_map_lowerChar]
    exact hsegs_ok seg hseg
  rw [currentRoute_initFms]
  show splitSegsAux (joinSegs ((routeSegments s).map (List.map lowerChar))) [] = _
  exact splitSegs_joinSegs _ hne hok2

/-- C8: for every syntactically valid route string, one parse/serialize
round trip reaches the canonical form: reparsing the serialized route
yields the same legs, reserializing is the identity (idempotent canonical
form), and the canonical route string is already lowercase (procedure legs
render as three dot-joined tokens, independent legs joined by `..`, per
`currentRoute`). -/
theorem route_parse_serialize_canonical (lib : NavigationLibrary) (s : String)
    (h : isValidRouteString s = true) :
    buildLegCollection lib (currentRoute (initFms lib s)) = buildLegCollection lib s
    ∧ currentRoute (initFms lib (currentRoute (initFms lib s))) = currentRoute (initFms lib s)
    ∧ toLowerStr (currentRoute (initFms lib s)) = currentRoute (initFms lib s) := by
  refine ⟨?_, ?_, ?_⟩
  · unfold buildLegCollection
    rw [routeSegments_canonical lib s h]
    exact map_buildLeg_lower lib (routeSegments s)
  · rw [currentRoute_initFms lib (currentRoute (initFms lib s))]
    rw [routeSegments_canonical lib s h]
    rw [map_map_lowerChar_idem]
    rw [currentRoute_initFms lib s]
  · rw [currentRoute_initFms lib s]
    unfold toLowerStr
    congr 1
    show (joinSegs ((routeSegments s).map (List.map lowerChar))).map lowerChar = _
    rw [joinSegs_map_lowerChar, map_map_lowerChar_idem]

/-- Witness for C8: the complex arrival route string reaches its canonical
lowercase form in one round trip. -/
theorem route_parse_serialize_canonical_witness :
    isValidRouteString "COWBY..BIKKR..DAG.KEPEC3.KLAS" = true
    ∧ currentRoute (initFms navigationLibraryFixture
        (currentRoute (initFms navigationLibraryFixture "COWBY..BIKKR..DAG.KEPEC3.KLAS"))) =
      currentRoute (initFms navigationLibraryFixture "COWBY..BIKKR..DAG.KEPEC3.KLAS") :=
  ⟨by decide,
   (route_parse_serialize_canonical navigationLibraryFixture
      "COWBY..BIKKR..DAG.KEPEC3.KLAS" (by decide)).2.1⟩

end OpenScope
